import Mathlib

/-!
Shallow embedding of the core of the `affine_invariant_features` repository
(headers `affine_invariant_feature.hpp` and `result_matcher.hpp`) and proofs
about it.

Modelling conventions:
* Machine floating-point values are carried as exact rationals (`ℚ`); the
  arithmetic the code performs on them is modelled exactly.
* External OpenCV routines (FLANN k-nearest-neighbour search,
  `cv::findHomography`, `cv::warpAffine`, `cv::GaussianBlur`, `cv::resize`,
  `cv::getRotationMatrix2D`, `cv::boundingRect`) are collaborators outside the
  repository; they appear as function parameters / oracle fields, while every
  line of the repository's own code is translated directly.
* Parallel execution (`cv::parallel_for_`) over index-addressed tasks is
  modelled as executing each task index once, in an arbitrary order, each task
  writing only its own output slot.
-/

namespace AffineInvariantFeatures

/-- Exact model of a 2D point (`cv::Point2f`); coordinates as rationals. -/
abbrev Pt := ℚ × ℚ

/-- Model of `cv::KeyPoint`: location, scale, orientation, response, octave and
class id.  Only the location is ever rewritten by the code under study. -/
structure KeyPoint where
  x : ℚ
  y : ℚ
  size : ℚ
  angle : ℚ
  response : ℚ
  octave : ℤ
  classId : ℤ
deriving DecidableEq, Inhabited

/-- Model of `cv::DMatch`: a (query row, reference row) pair with a distance. -/
structure DMatch where
  queryIdx : ℕ
  trainIdx : ℕ
  distance : ℚ
deriving DecidableEq, Inhabited

/-- Model of `cv::Matx33f`, the 3×3 planar homography returned by `match`. -/
structure Matx33f where
  m00 : ℚ
  m01 : ℚ
  m02 : ℚ
  m10 : ℚ
  m11 : ℚ
  m12 : ℚ
  m20 : ℚ
  m21 : ℚ
  m22 : ℚ
deriving DecidableEq, Inhabited

/-- The identity homography `cv::Matx33f::eye()`. -/
def Matx33f.eye : Matx33f := ⟨1, 0, 0, 0, 1, 0, 0, 0, 1⟩

/-- Model of the `Results` bundle consumed by `ResultMatcher`: keypoints plus a
descriptor matrix stored as a list of rows.  (The `normType` tag only selects
the external FLANN index structure and is absorbed into the `knnQuery`
oracle below.) -/
structure Results where
  keypoints : List KeyPoint
  descriptors : List (List ℚ)
deriving DecidableEq, Inhabited

/-- The ratio-test loop body of `ResultMatcher::match` (result_matcher.hpp,
`unique_matches`): for each query row's neighbour list, skip it when it has
fewer than two entries, skip it when `m[0].distance > 0.75 * m[1].distance`,
and otherwise keep the best neighbour `m[0]`, preserving row order. -/
def uniqueMatches (allMatches : List (List DMatch)) : List DMatch :=
  allMatches.filterMap fun m =>
    match m with
    | d0 :: d1 :: _ => if d0.distance > (3 / 4 : ℚ) * d1.distance then none else some d0
    | _ => none

/-- The external robust estimator `cv::findHomography(..., cv::RANSAC, 5., mask)`:
given source and reference points it either returns a homography together with
the inlier mask (one entry per point pair), or fails (`none`, modelling the
`cv::Exception` the code catches). -/
def HomographyEstimator := List Pt → List Pt → Option (Matx33f × List ℕ)

/-- Model of a constructed `ResultMatcher`: the stored reference `Results` and
the trained FLANN index, exposed as the oracle answering
`matcher_->knnMatch(descriptors, all_matches, 2)` (the index structure chosen
from the reference's norm type is external to the repository). -/
structure ResultMatcher where
  reference : Results
  knnQuery : List (List ℚ) → List (List DMatch)

/-- Output bundle of `ResultMatcher::match`: the two reference parameters
`transform` and `matches` at return (`matches` is a reserved word in Lean, so
the field is called `matchList`). -/
structure MatchResult where
  transform : Matx33f
  matchList : List DMatch
deriving DecidableEq, Inhabited

/-- The ratio-surviving matches of `ResultMatcher::match` for a given query:
`unique_matches` computed from the k=2 nearest-neighbour answers. -/
def ResultMatcher.ratioSurvivors (self : ResultMatcher) (source : Results) : List DMatch :=
  uniqueMatches (self.knnQuery source.descriptors)

/-- The `source_points` vector built inside `ResultMatcher::match`:
`source.keypoints[m->queryIdx].pt` for each surviving match. -/
def ResultMatcher.sourcePoints (self : ResultMatcher) (source : Results) : List Pt :=
  (self.ratioSurvivors source).map fun m =>
    ((source.keypoints.getD m.queryIdx default).x, (source.keypoints.getD m.queryIdx default).y)

/-- The `reference_points` vector built inside `ResultMatcher::match`:
`reference_->keypoints[m->trainIdx].pt` for each surviving match. -/
def ResultMatcher.referencePoints (self : ResultMatcher) (source : Results) : List Pt :=
  (self.ratioSurvivors source).map fun m =>
    ((self.reference.keypoints.getD m.trainIdx default).x,
      (self.reference.keypoints.getD m.trainIdx default).y)

/-- Translation of `ResultMatcher::match` (named `matchQuery` because `match`
is reserved in Lean).  Outputs start as the identity transform and an empty
match list; if fewer than 4 matches survive the ratio test the function
returns early; otherwise `cv::findHomography` is consulted, a failure is
caught and replaced by the identity transform and an all-zero inlier mask
(`mask.resize(source_points.size(), 0)`), and finally only the matches whose
mask entry is nonzero are packed into the output. -/
def ResultMatcher.matchQuery (self : ResultMatcher) (findHomography : HomographyEstimator)
    (source : Results) : MatchResult :=
  if (self.ratioSurvivors source).length < 4 then ⟨Matx33f.eye, []⟩
  else
    let tm :=
      match findHomography (self.sourcePoints source) (self.referencePoints source) with
      | some p => p
      | none => (Matx33f.eye, List.replicate (self.sourcePoints source).length 0)
    ⟨tm.1, (((self.ratioSurvivors source).zip tm.2).filter fun q => q.2 ≠ 0).map Prod.fst⟩

/-- Model of `std::vector::resize(n, v)`: truncate when shrinking, append
copies of `v` when growing. -/
def vecResize {α : Type} (l : List α) (n : ℕ) (v : α) : List α :=
  if n ≤ l.length then l.take n else l ++ List.replicate (n - l.length) v

/-- Translation of `ResultMatcher::parallelMatch`: resize both output vectors
to the number of matchers (defaults: identity transform / empty match list),
then run one task per non-null matcher, each task overwriting exactly its own
slot with its `match` output; null matchers get no task, so their slot keeps
the post-resize contents.  Tasks touch disjoint slots, so the slot contents
after the parallel join are order-independent and are modelled directly. -/
def ResultMatcher.parallelMatch (matchers : List (Option ResultMatcher))
    (findHomography : HomographyEstimator) (source : Results)
    (transforms : List Matx33f) (matchesArray : List (List DMatch)) :
    List Matx33f × List (List DMatch) :=
  let ntasks := matchers.length
  let transforms1 := vecResize transforms ntasks Matx33f.eye
  let matchesArray1 := vecResize matchesArray ntasks []
  ((List.range ntasks).map fun i =>
      match matchers.getD i none with
      | some m => (m.matchQuery findHomography source).transform
      | none => transforms1.getD i Matx33f.eye,
    (List.range ntasks).map fun i =>
      match matchers.getD i none with
      | some m => (m.matchQuery findHomography source).matchList
      | none => matchesArray1.getD i [])

/-- Model of `cv::Matx32f`, the 2×3 affine matrix built inside
`AffineInvariantFeature::detectAndComputeImpl`. -/
structure Matx32f where
  a00 : ℚ
  a01 : ℚ
  a02 : ℚ
  a10 : ℚ
  a11 : ℚ
  a12 : ℚ
deriving DecidableEq, Inhabited

/-- The identity affine map `cv::Matx32f::eye()`. -/
def Matx32f.eye : Matx32f := ⟨1, 0, 0, 0, 1, 0⟩

/-- Action of `cv::transform` on a single 2D point with a 2×3 matrix. -/
def Matx32f.apply (m : Matx32f) (p : Pt) : Pt :=
  (m.a00 * p.1 + m.a01 * p.2 + m.a02, m.a10 * p.1 + m.a11 * p.2 + m.a12)

/-- Model of `cv::invertAffineTransform` on a 2×3 matrix (adjugate over the
determinant of the 2×2 linear part; the sampling plan never produces a
degenerate map). -/
def Matx32f.invert (m : Matx32f) : Matx32f :=
  let det := m.a00 * m.a11 - m.a01 * m.a10
  ⟨m.a11 / det, -m.a01 / det, (m.a01 * m.a12 - m.a11 * m.a02) / det,
    -m.a10 / det, m.a00 / det, (m.a10 * m.a02 - m.a00 * m.a12) / det⟩

/-- Model of `cv::Rect` as returned by `cv::boundingRect` (an external call;
its integer rounding is internal to OpenCV, so the entries are opaque
rationals here). -/
structure RectQ where
  x : ℚ
  y : ℚ
  width : ℚ
  height : ℚ
deriving DecidableEq, Inhabited

/-- Output of one `detectAndCompute` call of the `cv::Feature2D` contract:
keypoints and the descriptor matrix as a list of rows. -/
structure DetectionOutput where
  keypoints : List KeyPoint
  descriptors : List (List ℚ)
deriving DecidableEq, Inhabited

/-- The feature-backend contract (`cv::Feature2D::detectAndCompute`): image,
mask, the contents of the caller's keypoint buffer at call time (read only
when `useProvidedKeypoints` is true), and the `useProvidedKeypoints` flag.
The backend is an external collaborator; any function of this type is an
admissible backend. -/
def Feature2D (Img : Type) := Img → Img → List KeyPoint → Bool → DetectionOutput

/-- Oracles for the external OpenCV routines invoked by
`AffineInvariantFeature::detectAndComputeImpl` and `detectAndCompute`.  The
warp-producing routines are keyed by the symbolic sample parameters `i`
(tilt level: tilt = 2^(i/2)) and `k` (angle step: phi = k·(72°/tilt)) where
the code passes values derived from them. -/
structure CvOps (Img : Type) where
  /-- `image.cols` and `image.rows` as rationals. -/
  imageSize : Img → ℚ × ℚ
  /-- `cv::getRotationMatrix2D(Point2f(0,0), phi, 1)` for phi = k·(72°/tilt):
  entries are cosines/sines, hence opaque here. -/
  getRotationMatrix2D : ℕ → ℕ → Matx32f
  /-- `cv::boundingRect` of the transformed corner points. -/
  boundingRect : List Pt → RectQ
  /-- `cv::warpAffine(image, image, affine, rect.size(), INTER_LINEAR,
  BORDER_REPLICATE)`. -/
  warpAffine : Img → Matx32f → RectQ → Img
  /-- `cv::GaussianBlur(image, image, Size(0,0), 0.8*sqrt(tilt*tilt-1), 0.01)`
  with tilt = 2^(i/2), keyed by `i`. -/
  gaussianBlur : Img → ℕ → Img
  /-- `cv::resize(image, image, Size(0,0), 1/tilt, 1, INTER_NEAREST)` with
  tilt = 2^(i/2), keyed by `i`. -/
  resizeShrink : Img → ℕ → Img
  /-- The value `std::pow(2., 0.5*i)` the code divides the first matrix row
  by (carried exactly as the rational the caller chooses to model it by). -/
  tiltVal : ℕ → ℚ
  /-- `cv::Mat(src_image.size(), CV_8UC1, 255)`: the full-validity mask
  synthesized when the caller supplies no mask. -/
  fullMask : Img → Img
  /-- `cv::warpAffine(mask, mask, affine, image.size(), INTER_NEAREST)`. -/
  warpMaskNearest : Img → Matx32f → Img → Img
  /-- Contents of row `r` of a freshly `create`d descriptor matrix before the
  copy loop writes it (uninitialized memory, hence an oracle). -/
  uninitRow : ℕ → List ℚ

/-- Translation of `AffineInvariantFeature::detectAndComputeImpl` for the
sample (tilt = 2^(i/2), phi = k·(72°/tilt)).  The code's guards `phi != 0.`
and `tilt != 1.` hold exactly when `k ≠ 0` and `i ≠ 0` respectively (for the
exact real values: tilt ≥ 1 with equality iff i = 0, and phi = 0 iff k = 0;
the first loop iteration sets phi to the literal `0.`, exact also in
floating point).  `keypoints0` is the contents of the caller's keypoint
buffer at entry (the per-task buffers of `detectAndCompute` are
default-constructed empty vectors). -/
def AffineInvariantFeature.detectAndComputeImpl {Img : Type} (ops : CvOps Img)
    (baseFeature : Feature2D Img) (srcImage : Img) (srcMask : Option Img)
    (keypoints0 : List KeyPoint) (i k : ℕ) (useProvidedKeypoints : Bool) :
    DetectionOutput :=
  let step1 : Img × Matx32f :=
    if k ≠ 0 then
      let rot := ops.getRotationMatrix2D i k
      let cols := (ops.imageSize srcImage).1
      let rows := (ops.imageSize srcImage).2
      let corners : List Pt := [(0, 0), (cols, 0), (cols, rows), (0, rows)]
      let tmpRect := ops.boundingRect (corners.map rot.apply)
      let affine := { rot with a02 := -tmpRect.x, a12 := -tmpRect.y }
      (ops.warpAffine srcImage affine tmpRect, affine)
    else (srcImage, Matx32f.eye)
  let step2 : Img × Matx32f :=
    if i ≠ 0 then
      let t := ops.tiltVal i
      let a := step1.2
      (ops.resizeShrink (ops.gaussianBlur step1.1 i) i,
        { a with a00 := a.a00 / t, a01 := a.a01 / t, a02 := a.a02 / t })
    else step1
  let mask0 := match srcMask with
    | some m => m
    | none => ops.fullMask srcImage
  let mask1 := if k ≠ 0 ∨ i ≠ 0 then ops.warpMaskNearest mask0 step2.2 step2.1 else mask0
  let out := baseFeature step2.1 mask1 keypoints0 useProvidedKeypoints
  let invAffine := step2.2.invert
  { keypoints := out.keypoints.map fun kp =>
      let p := invAffine.apply (kp.x, kp.y)
      { kp with x := p.1, y := p.2 },
    descriptors := out.descriptors }

/-- The inner `for (phi = 0; phi < 180; phi += 72/tilt)` loop of
`detectAndCompute`, with phi represented by its step count `k` (phi =
k·(72°/tilt), tilt = 2^(i/2)).  The guard `phi < 180` holds iff
`5184·k² < 32400·2^i` (proved against the real-valued bound in
`angleGuard_iff` below; the floating-point accumulation of phi hits no
rounding-sensitive comparison: the only exact-boundary cases, k·step = 180
at i ∈ {2,4}, are exactly representable).  The recursion carries fuel; 100
strictly exceeds every reachable iteration count (at most 15 for i ≤ 5). -/
def phiLoop (i : ℕ) : ℕ → ℕ → List (ℕ × ℕ)
  | _, 0 => []
  | k, fuel + 1 =>
    if 5184 * k ^ 2 < 32400 * 2 ^ i then (i, k) :: phiLoop i (k + 1) fuel else []

/-- The sample plan built at the top of
`AffineInvariantFeature::detectAndCompute`: the parallel arrays
`tilt_params`/`phi_params` as a single list of symbolic samples (i, k),
with the identity sample (tilt 1, phi 0) pushed first and the loop
`for (i = 1; i < 6; ++i)` appending each tilt level's angles. -/
def samplePlan : List (ℕ × ℕ) :=
  (0, 0) :: ((List.range 5).map fun j => phiLoop (j + 1) 0 100).flatten

/-- Execution of an index-addressed task list by `cv::parallel_for_`: the
scheduler runs the task indices in `sched`, each writing only its own slot.
Any interleaving of the worker threads is equivalent to some sequential
order of the slot writes, and writes to distinct slots commute, so a list
`sched` of indices captures every schedule. -/
def runSchedule {α : Type} (tasks : ℕ → α) (slots : List α) (sched : List ℕ) : List α :=
  sched.foldl (fun s j => s.set j (tasks j)) slots

/-- The descriptor-merging epilogue of `detectAndCompute`: if every
per-sample descriptor matrix is empty, `descriptors.create` is never called
and the caller's buffer `descriptors0` is left untouched; otherwise a matrix
of `kpCount` rows is created (rows initially uninitialized, `uninitRow`) and
the per-sample matrices are copied into consecutive row ranges from row 0.
(The truncation by `take` is unreachable when every backend call satisfies
its row-count contract: then the copied rows number exactly `kpCount`;
OpenCV would throw on an out-of-range `rowRange` instead.) -/
def mergeDescriptors (uninitRow : ℕ → List ℚ) (descriptors0 : List (List ℚ))
    (kpCount : ℕ) (arrays : List (List (List ℚ))) : List (List ℚ) :=
  if arrays.all List.isEmpty then descriptors0
  else
    arrays.flatten.take kpCount ++ ((List.range kpCount).drop arrays.flatten.length).map uninitRow

/-- Translation of `AffineInvariantFeature::detectAndCompute`: build the
sample plan, run one `detectAndComputeImpl` task per sample (each task's
keypoint/descriptor slot starts default-constructed empty; the bound
keypoint buffer passed to the backend is therefore `[]`), under an arbitrary
schedule `sched` of the task indices, then concatenate the per-task keypoint
lists in task order and merge the per-task descriptor matrices in the same
order.  `descriptors0` is the content of the caller's descriptor output
buffer at entry. -/
def AffineInvariantFeature.detectAndCompute {Img : Type} (ops : CvOps Img)
    (baseFeature : Feature2D Img) (image : Img) (mask : Option Img)
    (descriptors0 : List (List ℚ)) (useProvidedKeypoints : Bool)
    (sched : List ℕ) : DetectionOutput :=
  let ntasks := samplePlan.length
  let task : ℕ → DetectionOutput := fun t =>
    let s := samplePlan.getD t (0, 0)
    AffineInvariantFeature.detectAndComputeImpl ops baseFeature image mask [] s.1 s.2
      useProvidedKeypoints
  let outs := runSchedule task (List.replicate ntasks default) sched
  let keypoints := (outs.map DetectionOutput.keypoints).flatten
  { keypoints := keypoints,
    descriptors := mergeDescriptors ops.uninitRow descriptors0 keypoints.length
      (outs.map DetectionOutput.descriptors) }

/-- The sample plan as the specification words it: the identity sample
(tilt = 1, i.e. level 0, angle step 0) first, then for each tilt level
i = 1..5 in increasing order the angle steps k = 0, 1, 2, ... for every
angle k·(72°/tilt) strictly below 180°, in increasing order.  The largest
step counts (3, 4, 7, 9, 14) are certified against the real-valued bound
k·72/√(2^i) < 180 by the second conjunct of the C6 theorem below. -/
def specSamplePlan : List (ℕ × ℕ) :=
  [(0, 0),
   (1, 0), (1, 1), (1, 2), (1, 3),
   (2, 0), (2, 1), (2, 2), (2, 3), (2, 4),
   (3, 0), (3, 1), (3, 2), (3, 3), (3, 4), (3, 5), (3, 6), (3, 7),
   (4, 0), (4, 1), (4, 2), (4, 3), (4, 4), (4, 5), (4, 6), (4, 7), (4, 8), (4, 9),
   (5, 0), (5, 1), (5, 2), (5, 3), (5, 4), (5, 5), (5, 6), (5, 7), (5, 8), (5, 9),
   (5, 10), (5, 11), (5, 12), (5, 13), (5, 14)]

/-- Concrete matcher whose index reports, for the single query row, two
neighbours exactly at the 0.75 ratio boundary (distances 3/4 and 1). -/
def boundaryMatcher : ResultMatcher :=
  ⟨⟨[], []⟩, fun _ => [[⟨0, 0, 3 / 4⟩, ⟨0, 1, 1⟩]]⟩

/-- Concrete matcher whose index reports no neighbour lists at all. -/
def emptyMatcher : ResultMatcher :=
  ⟨⟨[], []⟩, fun _ => []⟩

/-- Concrete matcher whose index reports four query rows, each with an
unambiguous best neighbour (distances 0 and 1), so all four survive the
ratio test. -/
def fourRowMatcher : ResultMatcher :=
  ⟨⟨[], []⟩, fun _ => List.replicate 4 [⟨0, 0, 0⟩, ⟨0, 1, 1⟩]⟩

/-- Concrete homography estimator that always fails (always throws). -/
def failingEstimator : HomographyEstimator := fun _ _ => none

/-- Concrete instantiation of the external-routine oracles over `Img := ℕ`,
used by closed witness statements. -/
def trivOps : CvOps ℕ where
  imageSize := fun _ => (1, 1)
  getRotationMatrix2D := fun _ _ => Matx32f.eye
  boundingRect := fun _ => ⟨0, 0, 0, 0⟩
  warpAffine := fun img _ _ => img
  gaussianBlur := fun img _ => img
  resizeShrink := fun img _ => img
  tiltVal := fun _ => 1
  fullMask := fun img => img
  warpMaskNearest := fun msk _ _ => msk
  uninitRow := fun _ => []

/-- Concrete backend that distinguishes the `useProvidedKeypoints` flag:
with the flag set it reports one keypoint and one descriptor row, without
it it reports nothing. -/
def flagSensitiveFeature : Feature2D ℕ := fun _ _ _ useProvidedKeypoints =>
  if useProvidedKeypoints then ⟨[default], [[1]]⟩ else ⟨[], []⟩

/-- Concrete backend that ignores all of its inputs and reports nothing. -/
def constFeature : Feature2D ℕ := fun _ _ _ _ => ⟨[], []⟩

/-- Concrete backend that always reports one keypoint at the origin with one
descriptor row. -/
def oneKeypointFeature : Feature2D ℕ := fun _ _ _ _ => ⟨[default], [[1]]⟩

/-- A fixed non-identity transform used by closed witness statements. -/
def altTransform : Matx33f := ⟨2, 0, 0, 0, 1, 0, 0, 0, 1⟩

/-! ### Helper lemmas -/

/-- Packing matches against an all-zero inlier mask yields no matches. -/
theorem filter_zip_replicate_zero (l : List DMatch) (n : ℕ) :
    (((l.zip (List.replicate n 0)).filter fun q => q.2 ≠ 0).map Prod.fst) = [] := by
  rw [List.map_eq_nil_iff, List.filter_eq_nil_iff]
  rintro ⟨a, b⟩ hmem
  have hb : b ∈ List.replicate n 0 := (List.of_mem_zip hmem).2
  have hb0 : b = 0 := List.eq_of_mem_replicate hb
  simp [hb0]

/-- Reading a slot of a mapped index range. -/
theorem getD_range_map {α : Type} (f : ℕ → α) (n i : ℕ) (d : α) (hi : i < n) :
    ((List.range n).map f).getD i d = f i := by
  rw [List.getD_eq_getElem _ _ (by simpa using hi)]
  simp

/-- Resizing an empty vector fills it with the default value. -/
theorem vecResize_nil {α : Type} (n : ℕ) (v : α) :
    vecResize [] n v = List.replicate n v := by
  unfold vecResize
  cases n <;> simp

/-- Reading any slot of a replicated vector with matching default. -/
theorem getD_replicate_self {α : Type} (n i : ℕ) (v : α) :
    (List.replicate n v).getD i v = v := by
  rcases Nat.lt_or_ge i n with h | h
  · rw [List.getD_eq_getElem _ _ (by simpa using h)]
    simp
  · rw [List.getD_eq_default _ _ (by simpa using h)]

/-- Reading a slot below the cut of a truncated vector. -/
theorem getD_take_lt {α : Type} (l : List α) (n i : ℕ) (d : α) (hi : i < n) :
    (l.take n).getD i d = l.getD i d := by
  simp [List.getD, List.getElem?_take, hi]

/-! ### Claim theorems -/

/-- C1 (counterexample): the claim says a query row whose two nearest
distances satisfy d1 = 0.75·d2 exactly is excluded by the ratio test of
`ResultMatcher::match`.  At the concrete input with distances 3/4 and 1 the
boundary holds exactly, yet the row survives: the code drops a row only when
`m[0].distance > 0.75 * m[1].distance` holds strictly. -/
theorem C1_counterexample :
    (⟨0, 0, 3 / 4⟩ : DMatch).distance = (3 / 4 : ℚ) * (⟨0, 1, 1⟩ : DMatch).distance ∧
      boundaryMatcher.ratioSurvivors ⟨[], []⟩ = [⟨0, 0, 3 / 4⟩] := by
  constructor
  · norm_num
  · norm_num [boundaryMatcher, ResultMatcher.ratioSurvivors, uniqueMatches,
      List.filterMap_cons]

/-- C1 (amended): in `ResultMatcher::match`'s uniqueness ratio test, a query
row whose two nearest distances satisfy d1 = 0.75·d2 exactly is KEPT among
the ratio-surviving matches (its best neighbour is retained); a row is
excluded only when d1 > 0.75·d2 holds strictly. -/
theorem C1_boundary_row_survives (self : ResultMatcher) (source : Results)
    (d0 d1 : DMatch) (rest : List DMatch)
    (hrow : d0 :: d1 :: rest ∈ self.knnQuery source.descriptors)
    (hdist : d0.distance = (3 / 4 : ℚ) * d1.distance) :
    d0 ∈ self.ratioSurvivors source := by
  unfold ResultMatcher.ratioSurvivors uniqueMatches
  refine List.mem_filterMap.mpr ⟨d0 :: d1 :: rest, hrow, ?_⟩
  simp [hdist]

/-- Closed instance of `C1_boundary_row_survives` at the boundary input with
distances 3/4 and 1. -/
theorem C1_boundary_row_survives_witness :
    (⟨0, 0, 3 / 4⟩ : DMatch) ∈ boundaryMatcher.ratioSurvivors ⟨[], []⟩ :=
  C1_boundary_row_survives boundaryMatcher ⟨[], []⟩ ⟨0, 0, 3 / 4⟩ ⟨0, 1, 1⟩ []
    (by simp [boundaryMatcher]) (by norm_num)

/-- C5: whenever fewer than 4 query rows survive the ratio test,
`ResultMatcher::match` returns the identity transform and an empty match
list, for every homography estimator (in particular the estimator is never
consulted: the result does not depend on it). -/
theorem C5_insufficient_survivors (self : ResultMatcher) (source : Results)
    (h : (self.ratioSurvivors source).length < 4)
    (findHomography : HomographyEstimator) :
    self.matchQuery findHomography source = ⟨Matx33f.eye, []⟩ := by
  unfold ResultMatcher.matchQuery
  rw [if_pos h]

/-- Closed instance of `C5_insufficient_survivors`: a matcher whose index
returns no neighbour lists yields the identity transform and zero matches. -/
theorem C5_insufficient_survivors_witness :
    emptyMatcher.matchQuery failingEstimator ⟨[], []⟩ = ⟨Matx33f.eye, []⟩ :=
  C5_insufficient_survivors emptyMatcher ⟨[], []⟩
    (by norm_num [emptyMatcher, ResultMatcher.ratioSurvivors, uniqueMatches]) failingEstimator

/-- C4: with at least 4 ratio-surviving correspondences, when the robust
homography estimator fails to find a model (the caught `cv::Exception`
branch), `ResultMatcher::match` returns the identity transform and an empty
match list — every candidate is marked outlier by the all-zero mask — and
the failure is not propagated (the function returns a value). -/
theorem C4_estimator_failure_caught (self : ResultMatcher)
    (findHomography : HomographyEstimator) (source : Results)
    (h4 : 4 ≤ (self.ratioSurvivors source).length)
    (hfail : findHomography (self.sourcePoints source) (self.referencePoints source) = none) :
    self.matchQuery findHomography source = ⟨Matx33f.eye, []⟩ := by
  unfold ResultMatcher.matchQuery
  rw [if_neg (Nat.not_lt.mpr h4), hfail]
  show (⟨Matx33f.eye,
      (((self.ratioSurvivors source).zip
          (List.replicate (self.sourcePoints source).length 0)).filter
        fun q => q.2 ≠ 0).map Prod.fst⟩ : MatchResult) = ⟨Matx33f.eye, []⟩
  rw [filter_zip_replicate_zero]

/-- Closed instance of `C4_estimator_failure_caught`: four unambiguous
matches plus an always-failing estimator yield identity and no matches. -/
theorem C4_estimator_failure_caught_witness :
    fourRowMatcher.matchQuery failingEstimator ⟨[], []⟩ = ⟨Matx33f.eye, []⟩ :=
  C4_estimator_failure_caught fourRowMatcher failingEstimator ⟨[], []⟩
    (by norm_num [fourRowMatcher, ResultMatcher.ratioSurvivors, uniqueMatches,
      List.replicate, List.filterMap_cons]) rfl

/-- C8: with freshly default-constructed output vectors,
`ResultMatcher::parallelMatch` leaves, at the index of every null (absent)
matcher, the default identity transform and empty match list, while the slot
of every non-null matcher holds exactly its own `match` output —
independently of the other (possibly null) entries. -/
theorem C8_parallelMatch_skips_null (matchers : List (Option ResultMatcher))
    (findHomography : HomographyEstimator) (source : Results) (i : ℕ)
    (hi : i < matchers.length) :
    (ResultMatcher.parallelMatch matchers findHomography source [] []).1.getD i Matx33f.eye
        = (match matchers.getD i none with
           | some m => (m.matchQuery findHomography source).transform
           | none => Matx33f.eye) ∧
      (ResultMatcher.parallelMatch matchers findHomography source [] []).2.getD i []
        = (match matchers.getD i none with
           | some m => (m.matchQuery findHomography source).matchList
           | none => []) := by
  unfold ResultMatcher.parallelMatch
  rw [getD_range_map _ _ _ _ hi, getD_range_map _ _ _ _ hi]
  cases h : matchers.getD i none with
  | none => simp [h, vecResize_nil, getD_replicate_self]
  | some m => simp [h]

/-- Closed instance of `C8_parallelMatch_skips_null` at a singleton null
matcher list. -/
theorem C8_parallelMatch_skips_null_witness :
    (ResultMatcher.parallelMatch [none] failingEstimator ⟨[], []⟩ [] []).1.getD 0 Matx33f.eye
        = Matx33f.eye ∧
      (ResultMatcher.parallelMatch [none] failingEstimator ⟨[], []⟩ [] []).2.getD 0 [] = [] :=
  C8_parallelMatch_skips_null [none] failingEstimator ⟨[], []⟩ 0 (by decide)

/-- C10: when the caller passes output vectors already holding at least as
many elements as there are matchers, the `resize` step of
`ResultMatcher::parallelMatch` truncates without overwriting the surviving
elements, so the slot of a null matcher retains the caller's prior contents
instead of being reset to the identity transform and an empty match list. -/
theorem C10_resize_preserves_prefilled (matchers : List (Option ResultMatcher))
    (findHomography : HomographyEstimator) (source : Results)
    (transforms0 : List Matx33f) (matches0 : List (List DMatch)) (i : ℕ)
    (hT : matchers.length ≤ transforms0.length)
    (hM : matchers.length ≤ matches0.length)
    (hi : i < matchers.length)
    (hnull : matchers.getD i none = none) :
    vecResize transforms0 matchers.length Matx33f.eye = transforms0.take matchers.length ∧
      vecResize matches0 matchers.length [] = matches0.take matchers.length ∧
      (ResultMatcher.parallelMatch matchers findHomography source
          transforms0 matches0).1.getD i Matx33f.eye = transforms0.getD i Matx33f.eye ∧
      (ResultMatcher.parallelMatch matchers findHomography source
          transforms0 matches0).2.getD i [] = matches0.getD i [] := by
  refine ⟨by unfold vecResize; rw [if_pos hT], by unfold vecResize; rw [if_pos hM], ?_, ?_⟩
  · unfold ResultMatcher.parallelMatch
    rw [getD_range_map _ _ _ _ hi, hnull]
    show (vecResize transforms0 matchers.length Matx33f.eye).getD i Matx33f.eye
        = transforms0.getD i Matx33f.eye
    unfold vecResize
    rw [if_pos hT, getD_take_lt _ _ _ _ hi]
  · unfold ResultMatcher.parallelMatch
    rw [getD_range_map _ _ _ _ hi, hnull]
    show (vecResize matches0 matchers.length ([] : List DMatch)).getD i []
        = matches0.getD i []
    unfold vecResize
    rw [if_pos hM, getD_take_lt _ _ _ _ hi]

/-- Closed instance of `C10_resize_preserves_prefilled` at a singleton null
matcher with pre-filled caller vectors. -/
theorem C10_resize_preserves_prefilled_witness :
    vecResize [altTransform] [(none : Option ResultMatcher)].length Matx33f.eye
        = [altTransform].take [(none : Option ResultMatcher)].length ∧
      vecResize [[(⟨1, 2, 3⟩ : DMatch)]] [(none : Option ResultMatcher)].length []
        = [[(⟨1, 2, 3⟩ : DMatch)]].take [(none : Option ResultMatcher)].length ∧
      (ResultMatcher.parallelMatch [none] failingEstimator ⟨[], []⟩
          [altTransform] [[⟨1, 2, 3⟩]]).1.getD 0 Matx33f.eye
        = [altTransform].getD 0 Matx33f.eye ∧
      (ResultMatcher.parallelMatch [none] failingEstimator ⟨[], []⟩
          [altTransform] [[⟨1, 2, 3⟩]]).2.getD 0 []
        = [[(⟨1, 2, 3⟩ : DMatch)]].getD 0 [] :=
  C10_resize_preserves_prefilled [none] failingEstimator ⟨[], []⟩
    [altTransform] [[⟨1, 2, 3⟩]] 0 (by decide) (by decide) (by decide) rfl

/-! ### Helper lemmas about schedules and the merge step -/

/-- Executing a schedule preserves the number of slots. -/
theorem runSchedule_length {α : Type} (tasks : ℕ → α) (slots : List α) (sched : List ℕ) :
    (runSchedule tasks slots sched).length = slots.length := by
  induction sched generalizing slots with
  | nil => rfl
  | cons j rest ih =>
    show (runSchedule tasks (slots.set j (tasks j)) rest).length = slots.length
    rw [ih, List.length_set]

/-- A slot whose index the schedule never names keeps its contents. -/
theorem runSchedule_getD_not_mem {α : Type} (tasks : ℕ → α) (slots : List α)
    (sched : List ℕ) (i : ℕ) (d : α) (h : i ∉ sched) :
    (runSchedule tasks slots sched).getD i d = slots.getD i d := by
  induction sched generalizing slots with
  | nil => rfl
  | cons j rest ih =>
    show (runSchedule tasks (slots.set j (tasks j)) rest).getD i d = slots.getD i d
    rw [ih _ (fun hm => h (List.mem_cons_of_mem _ hm))]
    have hij : i ≠ j := fun e => h (e ▸ List.mem_cons_self _ _)
    simp [List.getD, List.getElem?_set_ne (Ne.symm hij)]

/-- A slot whose index the schedule names holds its own task's output,
whatever the rest of the schedule does. -/
theorem runSchedule_getD_mem {α : Type} (tasks : ℕ → α) (slots : List α)
    (sched : List ℕ) (i : ℕ) (d : α) (hmem : i ∈ sched) (hlen : i < slots.length) :
    (runSchedule tasks slots sched).getD i d = tasks i := by
  induction sched generalizing slots with
  | nil => cases hmem
  | cons j rest ih =>
    show (runSchedule tasks (slots.set j (tasks j)) rest).getD i d = tasks i
    by_cases hr : i ∈ rest
    · exact ih _ hr (by simpa using hlen)
    · have hij : i = j := by
        rcases List.mem_cons.mp hmem with h | h
        · exact h
        · exact absurd h hr
      subst hij
      rw [runSchedule_getD_not_mem _ _ _ _ _ hr]
      rw [List.getD_eq_getElem _ _ (by simpa using hlen)]
      simp [List.getElem_set_self]

/-- A schedule that names every task index produces, slotwise, exactly the
task outputs in index order. -/
theorem runSchedule_covering {α : Type} (tasks : ℕ → α) (n : ℕ) (d : α) (sched : List ℕ)
    (hs : ∀ t, t < n → t ∈ sched) :
    runSchedule tasks (List.replicate n d) sched = (List.range n).map tasks := by
  apply List.ext_getElem
  · rw [runSchedule_length]
    simp
  · intro i h1 h2
    have hin : i < n := by simpa using h2
    rw [← List.getD_eq_getElem _ d h1, ← List.getD_eq_getElem _ d h2]
    rw [runSchedule_getD_mem _ _ _ _ _ (hs i hin) (by simpa using hin)]
    rw [getD_range_map _ _ _ _ hin]

/-- Mapping a function over an index range through `getD` is mapping it over
the underlying list. -/
theorem range_map_getD {α β : Type} (l : List α) (f : α → β) (d : α) :
    ((List.range l.length).map fun t => f (l.getD t d)) = l.map f := by
  induction l with
  | nil => rfl
  | cons a tl ih =>
    rw [List.length_cons, List.range_succ_eq_map, List.map_cons, List.map_map]
    simp only [Function.comp_def, List.getD_cons_zero, List.getD_cons_succ]
    rw [ih, List.map_cons]

/-- Under any covering schedule, `detectAndCompute` equals the plan-ordered
concatenation of the per-sample outputs. -/
theorem detectAndCompute_covering {Img : Type} (ops : CvOps Img)
    (baseFeature : Feature2D Img) (image : Img) (mask : Option Img)
    (descriptors0 : List (List ℚ)) (useProvidedKeypoints : Bool) (sched : List ℕ)
    (hs : ∀ t, t < samplePlan.length → t ∈ sched) :
    AffineInvariantFeature.detectAndCompute ops baseFeature image mask descriptors0
        useProvidedKeypoints sched
      = { keypoints := (samplePlan.map fun s =>
            (AffineInvariantFeature.detectAndComputeImpl ops baseFeature image mask [] s.1 s.2
              useProvidedKeypoints).keypoints).flatten,
          descriptors := mergeDescriptors ops.uninitRow descriptors0
            ((samplePlan.map fun s =>
              (AffineInvariantFeature.detectAndComputeImpl ops baseFeature image mask [] s.1 s.2
                useProvidedKeypoints).keypoints).flatten).length
            (samplePlan.map fun s =>
              (AffineInvariantFeature.detectAndComputeImpl ops baseFeature image mask [] s.1 s.2
                useProvidedKeypoints).descriptors) } := by
  have houts :
      runSchedule
          (fun t =>
            AffineInvariantFeature.detectAndComputeImpl ops baseFeature image mask []
              (samplePlan.getD t (0, 0)).1 (samplePlan.getD t (0, 0)).2 useProvidedKeypoints)
          (List.replicate samplePlan.length default) sched
        = samplePlan.map fun s =>
            AffineInvariantFeature.detectAndComputeImpl ops baseFeature image mask [] s.1 s.2
              useProvidedKeypoints := by
    rw [runSchedule_covering _ _ _ _ hs]
    exact range_map_getD samplePlan
      (fun s => AffineInvariantFeature.detectAndComputeImpl ops baseFeature image mask [] s.1 s.2
        useProvidedKeypoints) (0, 0)
  simp only [AffineInvariantFeature.detectAndCompute]
  rw [houts]
  simp only [List.map_map]
  rfl

/-- The length of the merged descriptor matrix equals the keypoint count when
the copied rows number exactly the keypoint count and the caller's buffer is
fresh. -/
theorem mergeDescriptors_length (uninitRow : ℕ → List ℚ) (kpCount : ℕ)
    (arrays : List (List (List ℚ))) (hlen : arrays.flatten.length = kpCount) :
    (mergeDescriptors uninitRow [] kpCount arrays).length = kpCount := by
  unfold mergeDescriptors
  by_cases h : arrays.all List.isEmpty
  · rw [if_pos h]
    have hnil : arrays.flatten = [] := by
      rw [List.flatten_eq_nil_iff]
      intro x hx
      have := List.all_eq_true.mp h x hx
      exact List.isEmpty_iff.mp this
    rw [hnil] at hlen
    simpa using hlen
  · rw [if_neg h]
    rw [List.length_append, List.length_take, List.length_map, List.length_drop,
      List.length_range, hlen]
    omega

/-- Row-count preservation of one per-sample task: `detectAndComputeImpl`
emits exactly the backend's descriptor rows and one (inverted) keypoint per
backend keypoint. -/
theorem detectAndComputeImpl_rowCount {Img : Type} (ops : CvOps Img)
    (baseFeature : Feature2D Img) (srcImage : Img) (srcMask : Option Img)
    (keypoints0 : List KeyPoint) (i k : ℕ) (useProvidedKeypoints : Bool)
    (hbase : ∀ im m kp b, ((baseFeature im m kp b).descriptors).length
        = ((baseFeature im m kp b).keypoints).length) :
    ((AffineInvariantFeature.detectAndComputeImpl ops baseFeature srcImage srcMask keypoints0
        i k useProvidedKeypoints).descriptors).length
      = ((AffineInvariantFeature.detectAndComputeImpl ops baseFeature srcImage srcMask keypoints0
          i k useProvidedKeypoints).keypoints).length := by
  unfold AffineInvariantFeature.detectAndComputeImpl
  simp [hbase]

/-! ### Real-valued certification of the phi-loop guard -/

/-- The symbolic loop guard `5184·k² < 32400·2^i` is exactly the real-valued
bound `k·(72/tilt) < 180` for tilt = √(2^i). -/
theorem angleGuard_iff (i k : ℕ) :
    ((k : ℝ) * 72 / Real.sqrt (2 ^ i) < 180) ↔ 5184 * k ^ 2 < 32400 * 2 ^ i := by
  have h2 : (0 : ℝ) ≤ 2 ^ i := by positivity
  have ht : (0 : ℝ) < Real.sqrt (2 ^ i) := Real.sqrt_pos.mpr (by positivity)
  have hsq : Real.sqrt ((2 : ℝ) ^ i) ^ 2 = 2 ^ i := Real.sq_sqrt h2
  rw [div_lt_iff₀ ht]
  have e1 : ((k : ℝ) * 72) ^ 2 = 5184 * (k : ℝ) ^ 2 := by ring
  have e2 : (180 * Real.sqrt ((2 : ℝ) ^ i)) ^ 2 = 32400 * 2 ^ i := by
    rw [mul_pow, hsq]
    norm_num
  constructor
  · intro h
    have h1 : ((k : ℝ) * 72) ^ 2 < (180 * Real.sqrt ((2 : ℝ) ^ i)) ^ 2 := by
      apply pow_lt_pow_left₀ h (by positivity)
      norm_num
    rw [e1, e2] at h1
    exact_mod_cast h1
  · intro h
    have h3 : (5184 : ℝ) * (k : ℝ) ^ 2 < 32400 * 2 ^ i := by exact_mod_cast h
    have h1 : ((k : ℝ) * 72) ^ 2 < (180 * Real.sqrt ((2 : ℝ) ^ i)) ^ 2 := by
      rw [e1, e2]
      exact h3
    exact lt_of_pow_lt_pow_left₀ 2 (by positivity) h1

/-- Every sample of the plan stays within tilt level 5 and angle step 14. -/
theorem samplePlan_bounds : ∀ p ∈ samplePlan, p.1 ≤ 5 ∧ p.2 ≤ 14 := by decide

/-- Forward direction of the plan-membership characterization: every listed
sample satisfies the loop guard. -/
theorem samplePlan_mem_fwd :
    ∀ p ∈ samplePlan, 0 < p.1 → 5184 * p.2 ^ 2 < 32400 * 2 ^ p.1 := by decide

/-- Bounded backward direction of the plan-membership characterization:
every guard-satisfying sample in range is listed. -/
theorem samplePlan_mem_bwd :
    ∀ i ∈ List.range 6, ∀ k ∈ List.range 15,
      0 < i → 5184 * k ^ 2 < 32400 * 2 ^ i → (i, k) ∈ samplePlan := by decide

/-- Membership in the sample plan for a nonzero tilt level is exactly the
symbolic loop guard together with the level bound. -/
theorem mem_samplePlan_iff (i k : ℕ) (hi : 0 < i) :
    (i, k) ∈ samplePlan ↔ i ≤ 5 ∧ 5184 * k ^ 2 < 32400 * 2 ^ i := by
  constructor
  · intro h
    have hb := samplePlan_bounds _ h
    exact ⟨hb.1, samplePlan_mem_fwd _ h hi⟩
  · rintro ⟨h5, hlt⟩
    have h32 : 2 ^ i ≤ 32 := by
      calc 2 ^ i ≤ 2 ^ 5 := Nat.pow_le_pow_right (by norm_num) h5
      _ = 32 := by norm_num
    have hk : k < 15 := by
      by_contra hge
      push_neg at hge
      have h225 : 225 ≤ k ^ 2 := by
        calc (225 : ℕ) = 15 ^ 2 := by norm_num
        _ ≤ k ^ 2 := Nat.pow_le_pow_left hge 2
      have hceil : (1166400 : ℕ) < 1036800 := by
        calc (1166400 : ℕ) = 5184 * 225 := by norm_num
        _ ≤ 5184 * k ^ 2 := Nat.mul_le_mul_left _ h225
        _ < 32400 * 2 ^ i := hlt
        _ ≤ 32400 * 32 := Nat.mul_le_mul_left _ h32
        _ = 1036800 := by norm_num
      exact absurd hceil (by norm_num)
    exact samplePlan_mem_bwd i (List.mem_range.mpr (by omega)) k (List.mem_range.mpr hk) hi hlt

/-! ### Identity affine map facts -/

/-- Inverting the identity affine map yields the identity affine map. -/
theorem Matx32f.invert_eye : Matx32f.eye.invert = Matx32f.eye := by
  norm_num [Matx32f.invert, Matx32f.eye]

/-- The identity affine map moves no point. -/
theorem Matx32f.apply_eye (p : Pt) : Matx32f.eye.apply p = p := by
  simp [Matx32f.apply, Matx32f.eye]

/-! ### Claim theorems for the detection pipeline -/

/-- C6: the sample plan is deterministic (a closed constant) and is exactly:
the identity sample first, then for each tilt level 2^(i/2), i = 1..5 in
increasing order, the angle steps k = 0, 1, 2, ... in increasing order for
every angle k·(72°/tilt) strictly below 180°.  The first conjunct gives the
plan literally; the second certifies, against the real-valued angle bound
k·72/√(2^i) < 180, that the listed steps are exactly the admitted ones. -/
theorem C6_sample_plan :
    samplePlan = specSamplePlan ∧
      ∀ i k : ℕ, 0 < i →
        ((i, k) ∈ samplePlan ↔ i ≤ 5 ∧ (k : ℝ) * 72 / Real.sqrt (2 ^ i) < 180) := by
  constructor
  · decide
  · intro i k hi
    rw [mem_samplePlan_iff i k hi, angleGuard_iff]

/-- Closed instance of `C6_sample_plan` at tilt level 1, angle step 0. -/
theorem C6_sample_plan_witness :
    samplePlan = specSamplePlan ∧
      ((1, 0) ∈ samplePlan ↔ 1 ≤ 5 ∧ ((0 : ℕ) : ℝ) * 72 / Real.sqrt (2 ^ 1) < 180) :=
  ⟨C6_sample_plan.1, C6_sample_plan.2 1 0 (by norm_num)⟩

/-- C9: for the identity sample (tilt level 0, angle step 0) and a provided
mask, `detectAndComputeImpl` warps nothing and blurs nothing, hands the
backend exactly the unmodified source image and mask (and the unmodified
keypoint buffer and flag), and the keypoint inversion through the identity
affine map changes no coordinate: the per-sample output is the backend's own
direct output. -/
theorem C9_identity_sample {Img : Type} (ops : CvOps Img) (baseFeature : Feature2D Img)
    (srcImage : Img) (srcMask : Img) (keypoints0 : List KeyPoint)
    (useProvidedKeypoints : Bool) :
    AffineInvariantFeature.detectAndComputeImpl ops baseFeature srcImage (some srcMask)
        keypoints0 0 0 useProvidedKeypoints
      = baseFeature srcImage srcMask keypoints0 useProvidedKeypoints := by
  unfold AffineInvariantFeature.detectAndComputeImpl
  simp [Matx32f.invert_eye, Matx32f.apply_eye]

/-- C2 (counterexample): the claim says `detectAndCompute` yields identical
output for `useProvidedKeypoints = true` and `false` because the flag is not
threaded through to the per-sample calls.  In the code the flag IS bound
into every per-sample task and forwarded to the backend, so a backend that
distinguishes the flag yields different outputs. -/
theorem C2_counterexample :
    AffineInvariantFeature.detectAndCompute trivOps flagSensitiveFeature 0 none [] true
        (List.range samplePlan.length)
      ≠ AffineInvariantFeature.detectAndCompute trivOps flagSensitiveFeature 0 none [] false
        (List.range samplePlan.length) := by
  have hcov : ∀ t, t < samplePlan.length → t ∈ List.range samplePlan.length :=
    fun t ht => List.mem_range.mpr ht
  have hone : ∀ s ∈ samplePlan,
      ((AffineInvariantFeature.detectAndComputeImpl trivOps flagSensitiveFeature 0 none []
        s.1 s.2 true).keypoints).length = 1 := by
    intro s _
    unfold AffineInvariantFeature.detectAndComputeImpl
    simp [flagSensitiveFeature]
  have hzero : ∀ s ∈ samplePlan,
      ((AffineInvariantFeature.detectAndComputeImpl trivOps flagSensitiveFeature 0 none []
        s.1 s.2 false).keypoints).length = 0 := by
    intro s _
    unfold AffineInvariantFeature.detectAndComputeImpl
    simp [flagSensitiveFeature]
  intro h
  have hlen := congrArg (fun o => o.keypoints.length) h
  rw [detectAndCompute_covering _ _ _ _ _ _ _ hcov,
    detectAndCompute_covering _ _ _ _ _ _ _ hcov] at hlen
  simp only [List.length_flatten, List.map_map, Function.comp_def] at hlen
  rw [List.map_congr_left hone, List.map_congr_left hzero] at hlen
  simp at hlen
  exact absurd hlen (by decide)

/-- C2 (amended): `useProvidedKeypoints` is forwarded verbatim to every
per-sample backend call (each of which receives an empty provided-keypoint
buffer), so the outputs for `true` and `false` coincide exactly when the
backend itself does not distinguish the flag on those calls; for a
flag-sensitive backend they can differ (see the counterexample). -/
theorem C2_flag_insensitive_backend {Img : Type} (ops : CvOps Img)
    (baseFeature : Feature2D Img) (image : Img) (mask : Option Img)
    (descriptors0 : List (List ℚ)) (sched : List ℕ)
    (hflag : ∀ im m kp, baseFeature im m kp true = baseFeature im m kp false) :
    AffineInvariantFeature.detectAndCompute ops baseFeature image mask descriptors0 true sched
      = AffineInvariantFeature.detectAndCompute ops baseFeature image mask descriptors0
          false sched := by
  have himpl : ∀ i k,
      AffineInvariantFeature.detectAndComputeImpl ops baseFeature image mask [] i k true
        = AffineInvariantFeature.detectAndComputeImpl ops baseFeature image mask [] i k false := by
    intro i k
    unfold AffineInvariantFeature.detectAndComputeImpl
    simp only [hflag]
  unfold AffineInvariantFeature.detectAndCompute
  simp only [himpl]

/-- Closed instance of `C2_flag_insensitive_backend` with a backend ignoring
all inputs. -/
theorem C2_flag_insensitive_backend_witness :
    AffineInvariantFeature.detectAndCompute trivOps constFeature 0 none [] true
        (List.range samplePlan.length)
      = AffineInvariantFeature.detectAndCompute trivOps constFeature 0 none [] false
          (List.range samplePlan.length) :=
  C2_flag_insensitive_backend trivOps constFeature 0 none [] (List.range samplePlan.length)
    (fun _ _ _ => rfl)

/-- C3: whenever every backend call satisfies its own row-count contract,
`detectAndCompute` (with a fresh descriptor output buffer, under the
canonical schedule) returns exactly as many descriptor rows as keypoints;
and if every sample yields zero keypoints the result is an empty keypoint
sequence and an empty descriptor matrix. -/
theorem C3_rowcount_and_empty {Img : Type} (ops : CvOps Img)
    (baseFeature : Feature2D Img) (image : Img) (mask : Option Img)
    (useProvidedKeypoints : Bool)
    (hbase : ∀ im m kp b, ((baseFeature im m kp b).descriptors).length
        = ((baseFeature im m kp b).keypoints).length) :
    (((AffineInvariantFeature.detectAndCompute ops baseFeature image mask []
          useProvidedKeypoints (List.range samplePlan.length)).descriptors).length
        = ((AffineInvariantFeature.detectAndCompute ops baseFeature image mask []
            useProvidedKeypoints (List.range samplePlan.length)).keypoints).length) ∧
      ((∀ s ∈ samplePlan,
          (AffineInvariantFeature.detectAndComputeImpl ops baseFeature image mask [] s.1 s.2
            useProvidedKeypoints).keypoints = []) →
        AffineInvariantFeature.detectAndCompute ops baseFeature image mask []
            useProvidedKeypoints (List.range samplePlan.length) = ⟨[], []⟩) := by
  have hcov : ∀ t, t < samplePlan.length → t ∈ List.range samplePlan.length :=
    fun t ht => List.mem_range.mpr ht
  rw [detectAndCompute_covering _ _ _ _ _ _ _ hcov]
  have hrow : ∀ s ∈ samplePlan,
      ((AffineInvariantFeature.detectAndComputeImpl ops baseFeature image mask [] s.1 s.2
          useProvidedKeypoints).descriptors).length
        = ((AffineInvariantFeature.detectAndComputeImpl ops baseFeature image mask [] s.1 s.2
            useProvidedKeypoints).keypoints).length :=
    fun s _ => detectAndComputeImpl_rowCount _ _ _ _ _ _ _ _ hbase
  have hflat :
      ((samplePlan.map fun s =>
          (AffineInvariantFeature.detectAndComputeImpl ops baseFeature image mask [] s.1 s.2
            useProvidedKeypoints).descriptors).flatten).length
        = ((samplePlan.map fun s =>
            (AffineInvariantFeature.detectAndComputeImpl ops baseFeature image mask [] s.1 s.2
              useProvidedKeypoints).keypoints).flatten).length := by
    simp only [List.length_flatten, List.map_map, Function.comp_def]
    exact congrArg List.sum (List.map_congr_left hrow)
  constructor
  · exact mergeDescriptors_length _ _ _ hflat
  · intro hall
    have hkp : (samplePlan.map fun s =>
        (AffineInvariantFeature.detectAndComputeImpl ops baseFeature image mask [] s.1 s.2
          useProvidedKeypoints).keypoints).flatten = [] := by
      rw [List.flatten_eq_nil_iff]
      intro x hx
      rcases List.mem_map.mp hx with ⟨s, hs, rfl⟩
      exact hall s hs
    have hdesc : ∀ s ∈ samplePlan,
        (AffineInvariantFeature.detectAndComputeImpl ops baseFeature image mask [] s.1 s.2
          useProvidedKeypoints).descriptors = [] := by
      intro s hs
      have h0 := hrow s hs
      rw [hall s hs] at h0
      exact List.eq_nil_of_length_eq_zero (by simpa using h0)
    have hempty : (samplePlan.map fun s =>
        (AffineInvariantFeature.detectAndComputeImpl ops baseFeature image mask [] s.1 s.2
          useProvidedKeypoints).descriptors).all List.isEmpty := by
      rw [List.all_eq_true]
      intro x hx
      rcases List.mem_map.mp hx with ⟨s, hs, rfl⟩
      rw [hdesc s hs]
      rfl
    rw [hkp]
    unfold mergeDescriptors
    rw [if_pos hempty]

/-- Closed instance of `C3_rowcount_and_empty` with a backend reporting
nothing. -/
theorem C3_rowcount_and_empty_witness :
    (((AffineInvariantFeature.detectAndCompute trivOps constFeature 0 none [] false
          (List.range samplePlan.length)).descriptors).length
        = ((AffineInvariantFeature.detectAndCompute trivOps constFeature 0 none [] false
            (List.range samplePlan.length)).keypoints).length) ∧
      ((∀ s ∈ samplePlan,
          (AffineInvariantFeature.detectAndComputeImpl trivOps constFeature 0 none [] s.1 s.2
            false).keypoints = []) →
        AffineInvariantFeature.detectAndCompute trivOps constFeature 0 none [] false
            (List.range samplePlan.length) = ⟨[], []⟩) :=
  C3_rowcount_and_empty trivOps constFeature 0 none false (fun _ _ _ _ => rfl)

/-- C7: under every schedule that executes all tasks, `detectAndCompute`
produces the keypoints as the concatenation of the per-sample keypoint lists
in sample-plan order (task 0 first) and the descriptors merged in the same
order; in particular the output coincides with the canonical in-order
schedule, so identical inputs yield identical output regardless of the
order in which the parallel tasks complete. -/
theorem C7_merge_order_deterministic {Img : Type} (ops : CvOps Img)
    (baseFeature : Feature2D Img) (image : Img) (mask : Option Img)
    (descriptors0 : List (List ℚ)) (useProvidedKeypoints : Bool) (sched : List ℕ)
    (hs : ∀ t, t < samplePlan.length → t ∈ sched) :
    AffineInvariantFeature.detectAndCompute ops baseFeature image mask descriptors0
        useProvidedKeypoints sched
      = AffineInvariantFeature.detectAndCompute ops baseFeature image mask descriptors0
          useProvidedKeypoints (List.range samplePlan.length) ∧
      (AffineInvariantFeature.detectAndCompute ops baseFeature image mask descriptors0
          useProvidedKeypoints sched).keypoints
        = (samplePlan.map fun s =>
            (AffineInvariantFeature.detectAndComputeImpl ops baseFeature image mask [] s.1 s.2
              useProvidedKeypoints).keypoints).flatten ∧
      (AffineInvariantFeature.detectAndCompute ops baseFeature image mask descriptors0
          useProvidedKeypoints sched).descriptors
        = mergeDescriptors ops.uninitRow descriptors0
            ((samplePlan.map fun s =>
              (AffineInvariantFeature.detectAndComputeImpl ops baseFeature image mask [] s.1 s.2
                useProvidedKeypoints).keypoints).flatten).length
            (samplePlan.map fun s =>
              (AffineInvariantFeature.detectAndComputeImpl ops baseFeature image mask [] s.1 s.2
                useProvidedKeypoints).descriptors) := by
  have hcov : ∀ t, t < samplePlan.length → t ∈ List.range samplePlan.length :=
    fun t ht => List.mem_range.mpr ht
  rw [detectAndCompute_covering _ _ _ _ _ _ _ hs,
    detectAndCompute_covering _ _ _ _ _ _ _ hcov]
  exact ⟨rfl, rfl, rfl⟩

/-- Closed instance of `C7_merge_order_deterministic` under the reversed
schedule. -/
theorem C7_merge_order_deterministic_witness :
    AffineInvariantFeature.detectAndCompute trivOps oneKeypointFeature 0 none [] false
        (List.range samplePlan.length).reverse
      = AffineInvariantFeature.detectAndCompute trivOps oneKeypointFeature 0 none [] false
          (List.range samplePlan.length) ∧
      (AffineInvariantFeature.detectAndCompute trivOps oneKeypointFeature 0 none [] false
          (List.range samplePlan.length).reverse).keypoints
        = (samplePlan.map fun s =>
            (AffineInvariantFeature.detectAndComputeImpl trivOps oneKeypointFeature 0 none []
              s.1 s.2 false).keypoints).flatten ∧
      (AffineInvariantFeature.detectAndCompute trivOps oneKeypointFeature 0 none [] false
          (List.range samplePlan.length).reverse).descriptors
        = mergeDescriptors trivOps.uninitRow []
            ((samplePlan.map fun s =>
              (AffineInvariantFeature.detectAndComputeImpl trivOps oneKeypointFeature 0 none []
                s.1 s.2 false).keypoints).flatten).length
            (samplePlan.map fun s =>
              (AffineInvariantFeature.detectAndComputeImpl trivOps oneKeypointFeature 0 none []
                s.1 s.2 false).descriptors) :=
  C7_merge_order_deterministic trivOps oneKeypointFeature 0 none [] false
    (List.range samplePlan.length).reverse
    (fun _ ht => List.mem_reverse.mpr (List.mem_range.mpr ht))

end AffineInvariantFeatures
